import Mathlib

/-!
Shallow embedding of the acquisition/render pipeline of `ADC_DMA_FFT.ino`
(Bodmer/ADC_DMA_FFT).  Machine integers are modelled as `ℤ`/`ℕ`; C truncating
integer division (`/` on `int`) is `Int.tdiv`; `double` arithmetic on integer
inputs is modelled exactly over `ℚ`, with the `double → int` conversion
(truncation toward zero) made explicit by `truncQ`.
-/

namespace ADCDMAFFT

/-- Compile-time constant `SAMPLES` (line 20 of the sketch). -/
def SAMPLES : ℕ := 256

/-- Sprite width `WIDTH` (line 53). -/
def WIDTH : Nat := 256

/-- Sprite height `HEIGHT` (line 54). -/
def HEIGHT : Nat := 160

/-- Scale divisor `TRACE_SCALE` for the scope trace amplitude (line 32). -/
def TRACE_SCALE : Nat := 7

/-- Scale divisor `FFT_SCALE` for the FFT bar amplitude (line 33). -/
def FFT_SCALE : Nat := 100

/-- Exponential peak filter decay rate `EXP_FILTER` (line 34), the double
literal `0.98` modelled as the exact rational it denotes in the source text. -/
def EXP_FILTER : ℚ := 98 / 100

/-- Pixel width of a frequency band: `uint16_t pw = (4.0 * WIDTH / SAMPLES)`
(line 171); the double result 4.0 truncates to 4, which Nat division also
yields. -/
def pw : Nat := 4 * WIDTH / SAMPLES

/-- Truncation toward zero of a rational, the C semantics of converting a
`double` value to an integer type: floor for non-negative values, ceiling for
negative ones. -/
def truncQ (q : ℚ) : ℤ := if 0 ≤ q then ⌊q⌋ else ⌈q⌉

/-- Per-bin peak update (lines 181-184):
`if (approxBuffer[i] > peakBuffer[i]) { if (approxBuffer[i] / FFT_SCALE < HEIGHT) peakBuffer[i] = approxBuffer[i]; }`
`else peakBuffer[i] = peakBuffer[i] * EXP_FILTER + approxBuffer[i] * (1.0 - EXP_FILTER);`
`prev` is `peakBuffer[i]`, `cur` is `approxBuffer[i]`; the guard division is C
`int` division (truncation toward zero) and the decay line is computed in
`double` and truncated toward zero on assignment to the `int` array. -/
def peakUpdate (prev cur : ℤ) : ℤ :=
  if prev < cur then
    if cur.tdiv (FFT_SCALE : ℤ) < (HEIGHT : ℤ) then cur else prev
  else
    truncQ ((prev : ℚ) * EXP_FILTER + (cur : ℚ) * (1 - EXP_FILTER))

/-- Hue-wheel colour mapping `rainbowColor` (lines 253-299).  The `uint8_t`
parameter is reduced modulo 192 on entry; the input is modelled as the
mathematical natural the callers pass (every call site passes a value below
256, so the call-boundary `uint8_t` conversion is the identity there).  The
three 5-bit channels are packed as `red << 11 | green << 6 | blue`. -/
def rainbowColor (spectrum : ℕ) : ℕ :=
  let s := spectrum % 192
  let sector := s >>> 5
  let amplit := s &&& 0x1F
  let rgb : ℕ × ℕ × ℕ :=
    match sector with
    | 0 => (0x1F, amplit, 0)
    | 1 => (0x1F - amplit, 0x1F, 0)
    | 2 => (0, 0x1F, amplit)
    | 3 => (0, 0x1F - amplit, 0x1F)
    | 4 => (amplit, 0, 0x1F)
    | 5 => (0x1F, 0, 0x1F - amplit)
    | _ => (0, 0, 0)
  rgb.1 <<< 11 ||| rgb.2.1 <<< 6 ||| rgb.2.2

-- Concrete evaluations of the embedded definitions
example : rainbowColor 0 = 0x1F <<< 11 := by decide
example : rainbowColor 128 = 0x1F := by decide
example : peakUpdate 0 16000 = 0 := by decide
example : peakUpdate 0 15999 = 15999 := by decide
example : peakUpdate 100 50 = 99 := by norm_num [peakUpdate, truncQ, EXP_FILTER]

/-! ### Helper lemmas about truncation toward zero -/

theorem truncQ_le_int {q : ℚ} {n : ℤ} (h : q ≤ (n : ℚ)) : truncQ q ≤ n := by
  unfold truncQ
  split
  · calc ⌊q⌋ ≤ ⌊(n : ℚ)⌋ := Int.floor_le_floor h
    _ = n := Int.floor_intCast n
  · exact Int.ceil_le.mpr h

theorem int_le_truncQ {n : ℤ} {q : ℚ} (h : (n : ℚ) ≤ q) : n ≤ truncQ q := by
  unfold truncQ
  split
  · exact Int.le_floor.mpr h
  · exact_mod_cast h.trans (Int.le_ceil q)

/-! ### Helper lemmas about the peak filter -/

theorem decay_le_prev {prev cur : ℤ} (h : cur ≤ prev) :
    truncQ ((prev : ℚ) * EXP_FILTER + (cur : ℚ) * (1 - EXP_FILTER)) ≤ prev := by
  apply truncQ_le_int
  have h' : (cur : ℚ) ≤ (prev : ℚ) := by exact_mod_cast h
  unfold EXP_FILTER
  linarith

theorem cur_le_decay {prev cur : ℤ} (h : cur ≤ prev) :
    cur ≤ truncQ ((prev : ℚ) * EXP_FILTER + (cur : ℚ) * (1 - EXP_FILTER)) := by
  apply int_le_truncQ
  have h' : (cur : ℚ) ≤ (prev : ℚ) := by exact_mod_cast h
  unfold EXP_FILTER
  linarith

theorem peakUpdate_le_prev {prev cur : ℤ} (h : cur ≤ prev) :
    peakUpdate prev cur ≤ prev := by
  unfold peakUpdate
  rw [if_neg (not_lt.mpr h)]
  exact decay_le_prev h

/-- The commit guard `cur / FFT_SCALE < HEIGHT` (C truncating division) bounds
the committed value by 15999. -/
theorem le_of_tdiv_lt {p : ℤ} (h : p.tdiv (FFT_SCALE : ℤ) < (HEIGHT : ℤ)) :
    p ≤ 15999 := by
  have e1 : (FFT_SCALE : ℤ) = 100 := by norm_num [FFT_SCALE]
  have e2 : (HEIGHT : ℤ) = 160 := by norm_num [HEIGHT]
  rw [e1, e2] at h
  cases p with
  | ofNat m =>
    rw [show Int.tdiv (Int.ofNat m) 100 = Int.ofNat (m / 100) from rfl] at h
    simp only [Int.ofNat_eq_natCast] at h ⊢
    omega
  | negSucc m =>
    simp only [Int.negSucc_eq]
    omega

/-- Conversely, any value at most 15999 has display height `p / FFT_SCALE`
(truncating division) below `HEIGHT`. -/
theorem tdiv_lt_of_le {p : ℤ} (h : p ≤ 15999) :
    p.tdiv (FFT_SCALE : ℤ) < (HEIGHT : ℤ) := by
  have e1 : (FFT_SCALE : ℤ) = 100 := by norm_num [FFT_SCALE]
  have e2 : (HEIGHT : ℤ) = 160 := by norm_num [HEIGHT]
  rw [e1, e2]
  cases p with
  | ofNat m =>
    rw [show Int.tdiv (Int.ofNat m) 100 = Int.ofNat (m / 100) from rfl]
    simp only [Int.ofNat_eq_natCast] at h ⊢
    omega
  | negSucc m =>
    rw [show Int.tdiv (Int.negSucc m) 100 = -Int.ofNat (m.succ / 100) from rfl]
    simp only [Int.ofNat_eq_natCast, Nat.succ_eq_add_one]
    omega

theorem peakUpdate_bound {prev cur : ℤ} (h : prev ≤ 15999) :
    peakUpdate prev cur ≤ 15999 := by
  unfold peakUpdate
  split
  · split
    · next hc => exact le_of_tdiv_lt hc
    · exact h
  · next hlt => exact (decay_le_prev (not_lt.mp hlt)).trans h

theorem foldl_peakUpdate_bound (curs : List ℤ) :
    ∀ p : ℤ, p ≤ 15999 → curs.foldl peakUpdate p ≤ 15999 := by
  induction curs with
  | nil => intro p hp; exact hp
  | cons c rest ih =>
    intro p hp
    exact ih (peakUpdate p c) (peakUpdate_bound hp)

/-! ### Trigger detector (lines 207-212) -/

/-- Rising-edge-near-zero condition tested by the trigger scan (line 210):
`streamBuffer[s] > 0 && streamBuffer[s] < 4 * TRACE_SCALE && streamBuffer[s + 1] > streamBuffer[s]`. -/
def trigCond (w : ℕ → ℤ) (s : ℕ) : Prop :=
  0 < w s ∧ w s < 4 * (TRACE_SCALE : ℤ) ∧ w s < w (s + 1)

instance (w : ℕ → ℤ) (s : ℕ) : Decidable (trigCond w s) := by
  unfold trigCond; infer_instance

/-- The trigger `while` loop, restructured for structural recursion: `n` is the
number of loop-guard checks remaining, i.e. `(SAMPLES / 2 - 1) - s`; the loop
exits with the current index either when the guard `s < SAMPLES / 2 - 1` fails
(`n = 0`) or when the rising-edge condition holds. -/
def findTriggerGo : ℕ → ℕ → (ℕ → ℤ) → ℕ
  | 0, s, _ => s
  | n + 1, s, w => if trigCond w s then s else findTriggerGo n (s + 1) w

/-- `startSample` after the trigger scan of lines 207-212: the loop starts at
index 0 and makes `SAMPLES / 2 - 1` guard checks. -/
def findTrigger (w : ℕ → ℤ) : ℕ := findTriggerGo (SAMPLES / 2 - 1) 0 w

theorem findTriggerGo_ge (w : ℕ → ℤ) :
    ∀ n s, s ≤ findTriggerGo n s w := by
  intro n
  induction n with
  | zero => intro s; exact le_refl s
  | succ n ih =>
    intro s
    unfold findTriggerGo
    split
    · exact le_refl s
    · exact (Nat.le_succ s).trans (ih (s + 1))

theorem findTriggerGo_le (w : ℕ → ℤ) :
    ∀ n s, findTriggerGo n s w ≤ s + n := by
  intro n
  induction n with
  | zero => intro s; exact Nat.le_add_right s 0
  | succ n ih =>
    intro s
    unfold findTriggerGo
    split
    · exact Nat.le_add_right s (n + 1)
    · exact (ih (s + 1)).trans (by omega)

theorem findTriggerGo_min (w : ℕ → ℤ) :
    ∀ n s t, s ≤ t → t < findTriggerGo n s w → ¬ trigCond w t := by
  intro n
  induction n with
  | zero =>
    intro s t hst ht
    simp only [findTriggerGo] at ht
    omega
  | succ n ih =>
    intro s t hst ht
    rw [findTriggerGo] at ht
    by_cases hc : trigCond w s
    · rw [if_pos hc] at ht; omega
    · rw [if_neg hc] at ht
      rcases Nat.eq_or_lt_of_le hst with rfl | hlt
      · exact hc
      · exact ih (s + 1) t hlt ht

theorem findTriggerGo_found (w : ℕ → ℤ) :
    ∀ n s, findTriggerGo n s w < s + n → trigCond w (findTriggerGo n s w) := by
  intro n
  induction n with
  | zero =>
    intro s h
    simp only [findTriggerGo] at h
    omega
  | succ n ih =>
    intro s h
    rw [findTriggerGo] at h ⊢
    by_cases hc : trigCond w s
    · rw [if_pos hc] at h ⊢; exact hc
    · rw [if_neg hc] at h ⊢
      exact ih (s + 1) (by omega)

-- Concrete evaluations: a constant-zero window never triggers (fallback index
-- 127); an immediate rising edge near zero triggers at 0; the first index
-- satisfying all three conditions is returned.
set_option maxRecDepth 4000 in
example : findTrigger (fun _ => 0) = 127 := by decide
example : findTrigger (fun n => 1 + n) = 0 := by decide
set_option maxRecDepth 4000 in
example : findTrigger (fun n => if n < 5 then 0 else (n : ℤ) - 4) = 5 := by decide

/-! ### Amplitude-to-height mapping (lines 186-201, 225-231) -/

/-- Per-bin gain boost `(1 + (i / 10.0))` (lines 187, 188, 227), exact over ℚ. -/
def boost (i : ℕ) : ℚ := 1 + (i : ℚ) / 10

/-- Unclamped spectrum-mode height value `(1 + (i / 10.0)) * v / FFT_SCALE`
(lines 187-188), the exact `double` value before conversion to `uint16_t`. -/
def spectrumHeightQ (i : ℕ) (v : ℤ) : ℚ := boost i * (v : ℚ) / (FFT_SCALE : ℚ)

/-- Unclamped waterfall height value `(1 + (i / 10.0)) * v / (FFT_SCALE / 2)`
(line 227); `FFT_SCALE / 2` is C integer macro arithmetic, i.e. 50. -/
def waterfallHeightQ (i : ℕ) (v : ℤ) : ℚ :=
  boost i * (v : ℚ) / ((FFT_SCALE / 2 : ℕ) : ℚ)

/-- Conversion of a `double` height to `uint16_t`: truncation toward zero,
reduced modulo 2^16 (the conversion is only ever applied to in-range values in
the source; negative inputs are clipped through `Int.toNat`). -/
def uint16OfQ (q : ℚ) : ℕ := (truncQ q).toNat % 65536

/-- Spectrum-mode clamped height (lines 187-190 for the raw amplitude and
lines 187, 192/197 for the peak: the same expression and clamp are applied to
`approxBuffer[i]` and to `peakBuffer[i]`): `if (hr > HEIGHT) hr = HEIGHT;`. -/
def spectrumHeight (i : ℕ) (v : ℤ) : ℕ :=
  if HEIGHT < uint16OfQ (spectrumHeightQ i v) then HEIGHT
  else uint16OfQ (spectrumHeightQ i v)

/-- Waterfall clamped height (lines 227-228): `if (hr > 127) hr = 127;`. -/
def waterfallHeight (i : ℕ) (v : ℤ) : ℕ :=
  if 127 < uint16OfQ (waterfallHeightQ i v) then 127
  else uint16OfQ (waterfallHeightQ i v)

/-- Colour of the new waterfall row for bin `i` holding value `v` (line 229):
`rainbowColor(128 - hr)`. -/
def waterColor (i : ℕ) (v : ℤ) : ℕ := rainbowColor (128 - waterfallHeight i v)

/-! ### Waterfall frame evolution (lines 222-231)

The sprite is a `WIDTH × HEIGHT` grid of colours, modelled as a function from
(row, column) to colour, row 0 at the top. -/

/-- One waterfall frame applied to the persistent sprite `b`:
`spr.scroll(0, 1)` followed by `drawFastHLine(pw * i, 0, pw, col)` for each
bin (lines 224-231).  `spr.scroll` is TFT_eSPI library code, not part of this
repository; its effect is modelled from the spec: "scroll the persistent
FrameBuffer down by exactly one row (row 0 becomes row 1, discarding the last
row)".  Row 0 is then fully overwritten by the new bin colours (column `c`
belongs to bin `c / pw`). -/
def waterfallFrame (bins : ℕ → ℤ) (b : ℕ → ℕ → ℕ) : ℕ → ℕ → ℕ :=
  fun r c => if r = 0 then waterColor (c / pw) (bins (c / pw)) else b (r - 1) c

/-! ### Sample scaling and hand-off (lines 146-150) -/

/-- Element-wise scaling of a raw ADC sample (line 147):
`streamBuffer[i] = sampleBuffer[i]/4 - 512 + 49` (C truncating division). -/
def scaleSample (raw : ℤ) : ℤ := raw.tdiv 4 - 512 + 49

/-- The copy loop of lines 146-150, producing (`streamBuffer`, `approxBuffer`)
from the raw DMA samples: each iteration stores the scaled sample in
`streamBuffer[i]` and copies that same value into `approxBuffer[i]` (the
buffer subsequently handed to `Approx_FFT`). -/
def copyLoop : List ℤ → List ℤ × List ℤ
  | [] => ([], [])
  | r :: rest =>
    let s := scaleSample r
    (s :: (copyLoop rest).1, s :: (copyLoop rest).2)

/-! ### Scope-trace rendering loop (lines 215-219) -/

/-- Indices of `streamBuffer` read by the trace loop
`for (x = 0; x < WIDTH; x += pw) { drawLine(..., streamBuffer[startSample],
..., streamBuffer[startSample + 1], ...); startSample++; if (startSample >=
SAMPLES - 1) break; }`, starting from screen position `x` and sample index
`s`.  Each iteration reads indices `s` and `s + 1`, then increments `s` and
breaks once `s` reaches `SAMPLES - 1`. -/
def traceLoop (x s : ℕ) : List ℕ :=
  if h : x < WIDTH then
    s :: (s + 1) ::
      (if SAMPLES - 1 ≤ s + 1 then [] else traceLoop (x + pw) (s + 1))
  else []
  termination_by WIDTH - x
  decreasing_by simp only [pw, WIDTH, SAMPLES] at h ⊢; omega

/-- All `streamBuffer` indices the trace renderer reads when it starts from
trigger index `s` (the loop starts at `x = 0`). -/
def traceIndices (s : ℕ) : List ℕ := traceLoop 0 s

/-- Bound on the indices produced by the trace loop: from screen position `x`
there are at most `⌈(WIDTH - x) / pw⌉` further iterations, and the sample
index grows by one per iteration (plus the `+ 1` lookahead). -/
theorem traceLoop_bound :
    ∀ n x s, WIDTH - x ≤ n →
      ∀ j ∈ traceLoop x s, j ≤ s + (WIDTH - x + pw - 1) / pw := by
  intro n
  induction n with
  | zero =>
    intro x s hx j hj
    rw [traceLoop] at hj
    rw [dif_neg (by simp only [WIDTH] at hx ⊢; omega)] at hj
    simp at hj
  | succ n ih =>
    intro x s hx j hj
    rw [traceLoop] at hj
    by_cases hlt : x < WIDTH
    · rw [dif_pos hlt] at hj
      simp only [pw, WIDTH, SAMPLES] at hlt hx ⊢
      simp only [List.mem_cons] at hj
      rcases hj with rfl | hj
      · omega
      rcases hj with rfl | hj
      · omega
      · rcases hj' : (if SAMPLES - 1 ≤ s + 1 then ([] : List ℕ)
            else traceLoop (x + pw) (s + 1)) with _ | _
        · rw [hj'] at hj; simp at hj
        · by_cases hbrk : SAMPLES - 1 ≤ s + 1
          · rw [if_pos hbrk] at hj; simp at hj
          · rw [if_neg hbrk] at hj
            have := ih (x + pw) (s + 1) (by
              simp only [pw, WIDTH, SAMPLES]; omega) j hj
            simp only [pw, WIDTH, SAMPLES] at this
            omega
    · rw [dif_neg hlt] at hj
      simp at hj

/-! ### Claim theorems -/

/-- C1 (counterexample): the claim "after the per-frame update, the new
`PeakState[i]` is greater than or equal to `SpectrumBins[i]` of that same
frame" fails for every bin whose rise is rejected by the commit guard: at
`prev = 0`, `cur = 16000` the guard `16000 / FFT_SCALE < HEIGHT` (160 < 160)
fails, the peak stays 0 and is strictly below the current bin value. -/
theorem C1_counterexample : ¬ ((16000 : ℤ) ≤ peakUpdate 0 16000) := by decide

/-- C1 (amended): after the per-frame update, `PeakState[i]` is at least
`SpectrumBins[i]` of the same frame provided the rise is not rejected by the
commit guard, i.e. whenever `cur ≤ prev` (decay branch) or
`cur / FFT_SCALE < HEIGHT` (committed rise). -/
theorem C1_peak_ge_current (prev cur : ℤ)
    (h : cur ≤ prev ∨ cur.tdiv (FFT_SCALE : ℤ) < (HEIGHT : ℤ)) :
    cur ≤ peakUpdate prev cur := by
  by_cases hlt : prev < cur
  · rcases h with h | h
    · omega
    · unfold peakUpdate
      rw [if_pos hlt, if_pos h]
  · unfold peakUpdate
    rw [if_neg hlt]
    exact cur_le_decay (not_lt.mp hlt)

/-- C1 (witness): the amended theorem at `prev = 100`, `cur = 50`. -/
theorem C1_witness : (50 : ℤ) ≤ peakUpdate 100 50 :=
  C1_peak_ge_current 100 50 (Or.inl (by norm_num))

/-- C2: for every scaled window `w`, the trigger scan (1) returns an index at
most `SAMPLES / 2 - 1`, (2) rejects every earlier index, (3) if the returned
index is below the scan limit it satisfies the rising-edge condition (so it is
the least such index), and (4) if no index up to `SAMPLES / 2 - 2` satisfies
the condition it returns the scan-limit index `SAMPLES / 2 - 1` itself. -/
theorem C2_trigger_correct (w : ℕ → ℤ) :
    findTrigger w ≤ SAMPLES / 2 - 1 ∧
    (∀ t, t < findTrigger w → ¬ trigCond w t) ∧
    (findTrigger w < SAMPLES / 2 - 1 → trigCond w (findTrigger w)) ∧
    ((∀ t, t ≤ SAMPLES / 2 - 2 → ¬ trigCond w t) →
      findTrigger w = SAMPLES / 2 - 1) := by
  have h1 : findTrigger w ≤ SAMPLES / 2 - 1 := by
    have := findTriggerGo_le w (SAMPLES / 2 - 1) 0
    unfold findTrigger
    omega
  have h2 : ∀ t, t < findTrigger w → ¬ trigCond w t := by
    intro t ht
    exact findTriggerGo_min w (SAMPLES / 2 - 1) 0 t (Nat.zero_le t) ht
  have h3 : findTrigger w < SAMPLES / 2 - 1 → trigCond w (findTrigger w) := by
    intro hlt
    unfold findTrigger at hlt ⊢
    exact findTriggerGo_found w (SAMPLES / 2 - 1) 0 (by omega)
  refine ⟨h1, h2, h3, ?_⟩
  intro hnone
  by_contra hne
  have hlt : findTrigger w < SAMPLES / 2 - 1 := lt_of_le_of_ne h1 hne
  exact hnone (findTrigger w) (by omega) (h3 hlt)

/-- C2 (witness): the theorem applied to the all-zero window, on which no
index satisfies the rising-edge condition. -/
theorem C2_witness : findTrigger (fun _ => 0) ≤ SAMPLES / 2 - 1 :=
  (C2_trigger_correct (fun _ => 0)).1

/-- C3 (counterexample): the claim "the waterfall height value is half the
spectrum-mode height value" fails at bin 0 with bin value 100: the spectrum
height is 1 but the waterfall height is 2, not 1/2. -/
theorem C3_counterexample :
    ¬ (waterfallHeightQ 0 100 = spectrumHeightQ 0 100 / 2) := by
  norm_num [waterfallHeightQ, spectrumHeightQ, boost, FFT_SCALE]

/-- C3 (amended): the waterfall height value is derived the same way as the
spectrum-mode height but at TWICE the gain (the divisor is halved, from
`FFT_SCALE` to `FFT_SCALE / 2`): for equal bin values the unclamped waterfall
height is double the unclamped spectrum-mode height. -/
theorem C3_waterfall_double_gain (i : ℕ) (v : ℤ) :
    waterfallHeightQ i v = 2 * spectrumHeightQ i v := by
  unfold waterfallHeightQ spectrumHeightQ FFT_SCALE
  norm_num
  ring

/-- C4 (counterexample): the claim "row r of frame k+1 equals row r+1 of frame
k" fails on a buffer whose row r is r everywhere: after one waterfall frame,
row 1 holds the old row 0 (value 0), not the old row 2 (value 2). -/
theorem C4_counterexample :
    ¬ (waterfallFrame (fun _ => 0) (fun r _ => r) 1 0
        = (fun (r : ℕ) (_ : ℕ) => r) 2 0) := by
  decide

/-- C4 (amended): the waterfall scrolls the other way: for every pair of
consecutive frames and every row `r < HEIGHT - 1`, row `r + 1` of the new
frame equals row `r` of the previous frame (content moves down one row; row 0
is the newly drawn row). -/
theorem C4_waterfall_scroll (bins : ℕ → ℤ) (b : ℕ → ℕ → ℕ) (r c : ℕ)
    (h : r < HEIGHT - 1) :
    waterfallFrame bins b (r + 1) c = b r c := by
  simp [waterfallFrame]

/-- C4 (witness): the amended theorem at row 0 of a constant buffer. -/
theorem C4_witness :
    waterfallFrame (fun _ => 0) (fun _ _ => 7) (0 + 1) 0
      = (fun (_ : ℕ) (_ : ℕ) => 7) 0 0 :=
  C4_waterfall_scroll (fun _ => 0) (fun _ _ => 7) 0 0 (by norm_num [HEIGHT])

/-- C5: `rainbowColor` is periodic with period 192 in its (mathematical)
input: `rainbowColor x = rainbowColor (x + 192)` for every `x`. -/
theorem C5_rainbow_periodic (x : ℕ) : rainbowColor x = rainbowColor (x + 192) := by
  simp [rainbowColor, Nat.add_mod_right]

/-- C6: for non-negative bin and peak values, every rendered height — the
spectrum-mode raw height, the spectrum-mode peak height (same formula and
clamp applied to `peakBuffer[i]`), and the waterfall height — lies between 0
and `HEIGHT` after the silent clamp. -/
theorem C6_heights_bounded (i : ℕ) (v p : ℤ) (hv : 0 ≤ v) (hp : 0 ≤ p) :
    (0 ≤ spectrumHeight i v ∧ spectrumHeight i v ≤ HEIGHT) ∧
    (0 ≤ spectrumHeight i p ∧ spectrumHeight i p ≤ HEIGHT) ∧
    (0 ≤ waterfallHeight i v ∧ waterfallHeight i v ≤ HEIGHT) := by
  refine ⟨⟨Nat.zero_le _, ?_⟩, ⟨Nat.zero_le _, ?_⟩, ⟨Nat.zero_le _, ?_⟩⟩
  · unfold spectrumHeight; split <;> omega
  · unfold spectrumHeight; split <;> omega
  · unfold waterfallHeight HEIGHT; split <;> omega

/-- C6 (witness): the theorem at bin 0 with zero bin and peak values. -/
theorem C6_witness :
    (0 ≤ spectrumHeight 0 0 ∧ spectrumHeight 0 0 ≤ HEIGHT) ∧
    (0 ≤ spectrumHeight 0 0 ∧ spectrumHeight 0 0 ≤ HEIGHT) ∧
    (0 ≤ waterfallHeight 0 0 ∧ waterfallHeight 0 0 ≤ HEIGHT) :=
  C6_heights_bounded 0 0 0 (by norm_num) (by norm_num)

/-- C7: whenever the current bin value does not exceed the stored peak
(`cur ≤ prev`), the update takes the decay branch
`prev * EXP_FILTER + cur * (1 - EXP_FILTER)` (truncated toward zero on
assignment), and the result is at most `prev`: the peak is non-increasing. -/
theorem C7_peak_decay_nonincreasing (prev cur : ℤ) (h : cur ≤ prev) :
    peakUpdate prev cur
        = truncQ ((prev : ℚ) * EXP_FILTER + (cur : ℚ) * (1 - EXP_FILTER)) ∧
    peakUpdate prev cur ≤ prev := by
  constructor
  · unfold peakUpdate
    rw [if_neg (not_lt.mpr h)]
  · exact peakUpdate_le_prev h

/-- C7 (witness): the theorem at `prev = 100`, `cur = 50`. -/
theorem C7_witness : peakUpdate 100 50 ≤ 100 :=
  (C7_peak_decay_nonincreasing 100 50 (by norm_num)).2

/-- C8: the per-frame peak update preserves the invariant
`PeakState[i] / FFT_SCALE < HEIGHT` (C truncating division), and consequently
every peak value reachable from the zero-initialized state — under any
sequence of frame bin values — satisfies it. -/
theorem C8_peak_invariant :
    (∀ prev cur : ℤ, prev.tdiv (FFT_SCALE : ℤ) < (HEIGHT : ℤ) →
        (peakUpdate prev cur).tdiv (FFT_SCALE : ℤ) < (HEIGHT : ℤ)) ∧
    (∀ curs : List ℤ,
        (curs.foldl peakUpdate 0).tdiv (FFT_SCALE : ℤ) < (HEIGHT : ℤ)) := by
  constructor
  · intro prev cur h
    exact tdiv_lt_of_le (peakUpdate_bound (le_of_tdiv_lt h))
  · intro curs
    exact tdiv_lt_of_le (foldl_peakUpdate_bound curs 0 (by norm_num))

/-- C8 (witness): the preservation statement at `prev = 0`, `cur = 0`. -/
theorem C8_witness :
    (peakUpdate 0 0).tdiv (FFT_SCALE : ℤ) < (HEIGHT : ℤ) :=
  C8_peak_invariant.1 0 0 (by decide)

/-- C9: the copy loop is a deterministic element-wise map: `streamBuffer`
holds `scaleSample` of each raw sample (`raw / 4 - 512 + 49`, truncating
division), and `approxBuffer` — the buffer handed to the spectral transform —
is element-for-element identical to the scaled window the trigger detector
and trace renderer read. -/
theorem C9_scaling_deterministic (raws : List ℤ) :
    (copyLoop raws).1 = raws.map scaleSample ∧
    (copyLoop raws).2 = (copyLoop raws).1 := by
  induction raws with
  | nil => exact ⟨rfl, rfl⟩
  | cons r rest ih =>
    constructor
    · simp [copyLoop, ih.1]
    · simp [copyLoop, ih.2]

/-- C10: starting from any trigger index at most `SAMPLES / 2 - 1`, every
index the trace loop reads from the scaled sample window — including the
`+ 1` lookahead for each segment endpoint — is strictly below `SAMPLES`. -/
theorem C10_trace_reads_in_bounds (s0 : ℕ) (h : s0 ≤ SAMPLES / 2 - 1) :
    ∀ j ∈ traceIndices s0, j < SAMPLES := by
  intro j hj
  simp only [traceIndices] at hj
  have hb := traceLoop_bound WIDTH 0 s0 (by omega) j hj
  norm_num [WIDTH, SAMPLES, pw] at hb h ⊢
  omega

/-- C10 (witness): the theorem at trigger index 0 and the first read index. -/
theorem C10_witness : (0 : ℕ) < SAMPLES :=
  C10_trace_reads_in_bounds 0 (by norm_num [SAMPLES]) 0 (by
    rw [traceIndices, traceLoop]
    norm_num [WIDTH])

end ADCDMAFFT
